import Mathlib

/-!
Verification of the AI News Reporter pipeline.

This file embeds, in Lean, the parts of the TypeScript code base that the
checked properties speak about:

* the durable TTL cache (`advanced-cache`, `AdvancedCache.get` / `set`);
* the API credential pool (`api-pool`, `APIKeyPool.getNextKey`);
* the scheduler state machine (`scheduler`, `getNextAction`,
  `completeRSSFetch`, `completeAnalysis`);
* the classification pipeline (`groq-advanced`: `normalizeAnalysis`,
  `detectCategory`, `detectPriority`, `createFallbackAnalysis`,
  `batchAnalyze`);
* the aggregator dedup/filter stage (`sources/index`,
  `deduplicateAndFilter`).

Conventions used by the embedding:

* JavaScript timestamps (`Date.now()`, `getTime()`) are `Int` milliseconds.
  A date string that may fail to parse (`new Date(s)` giving `NaN`) is an
  `Option Int`: `none` is an invalid date.  Subtraction of two `NaN`
  timestamps in a sort comparator yields `NaN`, which the JS sort treats as
  `0` (equal); the comparators below encode that case explicitly.
* A JS `Map` is an association list in insertion order; `Map.set` replaces
  in place, `Map.delete` removes the entry.  A JS `Set` of strings is a
  `List String` used only through membership.
* `String.toLowerCase` is modelled on ASCII (all keyword tables in the
  source are ASCII).
* `async` functions are pure state transformers: disk persistence
  (`load` / `saveState`) and logging are identity on the modelled state and
  are dropped.  External calls (the Groq completion, the RSS fetches) are
  modelled by an explicit outcome argument.
-/

/-! ## String machinery -/

/-- ASCII lower-casing of one character, as `String.prototype.toLowerCase`
acts on the ASCII inputs used throughout the source. -/
def lcChar (c : Char) : Char :=
  if 'A' ≤ c ∧ c ≤ 'Z' then Char.ofNat (c.toNat + 32) else c

/-- Lower-case a string, viewed as its character list. -/
def lcStr (s : List Char) : List Char := s.map lcChar

/-- Does `hay` start with `needle`?  (`==` on characters.) -/
def startsWithL : List Char → List Char → Bool
  | [], _ => true
  | _ :: _, [] => false
  | a :: as, b :: bs => a == b && startsWithL as bs

/-- JS `String.prototype.includes`: does `hay` contain `needle` as a
contiguous substring? -/
def containsL (needle : List Char) : List Char → Bool
  | [] => needle.isEmpty
  | c :: t => startsWithL needle (c :: t) || containsL needle t

/-- Substring test on `String`s (`a.includes(b)`). -/
def containsS (hay needle : String) : Bool := containsL needle.data hay.data

/-- Does the lower-cased `hay` contain the lower-cased `needle`?  This is the
ubiquitous `text.includes(kw.toLowerCase())` pattern where `text` is already
lower-cased. -/
def containsLC (hay needle : String) : Bool :=
  containsL (lcStr needle.data) (lcStr hay.data)

/-! ## JS `Map` as an association list -/

/-- `Map.get`. -/
def mapGet {β : Type} : List (String × β) → String → Option β
  | [], _ => none
  | (k', v) :: rest, k => if k' = k then some v else mapGet rest k

/-- `Map.set`: replace in place if the key exists, else append. -/
def mapSet {β : Type} : List (String × β) → String → β → List (String × β)
  | [], k, v => [(k, v)]
  | (k', v') :: rest, k, v =>
    if k' = k then (k, v) :: rest else (k', v') :: mapSet rest k v

/-- `Map.delete`: remove the entry with the given key. -/
def mapDelete {β : Type} : List (String × β) → String → List (String × β)
  | [], _ => []
  | (k', v') :: rest, k => if k' = k then rest else (k', v') :: mapDelete rest k

/-! ## Durable TTL cache (`advanced-cache.ts`, class `AdvancedCache<T>`) -/

/-- One cache entry (`interface CacheEntry<T>`). -/
structure CacheEntry (T : Type) where
  data : T
  timestamp : Int
  expiresAt : Int
  source : Option String
deriving Repr, DecidableEq

/-- The modelled state of an `AdvancedCache<T>`: the in-memory map plus the
configured default TTL and the hit/miss counters.  The cache file path and
the `loaded` flag only drive disk I/O and are dropped. -/
structure AdvancedCache (T : Type) where
  memoryCache : List (String × CacheEntry T)
  ttl : Int
  hits : Nat
  misses : Nat
deriving Repr, DecidableEq

/-- `AdvancedCache.get(key)` at time `now`: a miss on an absent key, lazy
eviction (delete plus miss) when `entry.expiresAt < Date.now()`, otherwise a
hit returning `entry.data`. -/
def AdvancedCache.get {T : Type} (c : AdvancedCache T) (key : String)
    (now : Int) : Option T × AdvancedCache T :=
  match mapGet c.memoryCache key with
  | none => (none, { c with misses := c.misses + 1 })
  | some entry =>
    if entry.expiresAt < now then
      (none, { c with memoryCache := mapDelete c.memoryCache key,
                      misses := c.misses + 1 })
    else
      (some entry.data, { c with hits := c.hits + 1 })

/-- `AdvancedCache.set(key, data, customTTL?, source?)` at time `now`.
`customTTL || this.ttl` falls back to the default TTL when `customTTL` is
absent or `0` (JS falsiness on numbers). -/
def AdvancedCache.set {T : Type} (c : AdvancedCache T) (key : String)
    (data : T) (customTTL : Option Int) (source : Option String)
    (now : Int) : AdvancedCache T :=
  let ttlUsed := match customTTL with
    | some t => if t = 0 then c.ttl else t
    | none => c.ttl
  { c with memoryCache :=
      mapSet c.memoryCache key ⟨data, now, now + ttlUsed, source⟩ }

/-! ## Scheduler (`scheduler.ts`, class `Scheduler`) -/

/-- `interface SchedulerState`.  `lastFetchDate` is an ISO rendering of the
same instant as `lastRSSFetch`; it is modelled as the raw timestamp. -/
structure SchedulerState where
  lastRSSFetch : Int
  lastAnalysis : Int
  fetchCount : Nat
  lastFetchDate : Int
  isProcessing : Bool
  processStartTime : Option Int
deriving Repr, DecidableEq

/-- `interface SchedulerConfig`. -/
structure SchedulerConfig where
  minFetchInterval : Int
  minAnalysisInterval : Int
  staleDataThreshold : Int
  maxProcessingTime : Int
deriving Repr, DecidableEq

/-- `DEFAULT_CONFIG`. -/
def DEFAULT_CONFIG : SchedulerConfig :=
  { minFetchInterval := 5 * 60 * 1000
    minAnalysisInterval := 15 * 60 * 1000
    staleDataThreshold := 30 * 60 * 1000
    maxProcessingTime := 2 * 60 * 1000 }

/-- `canFetchRSS()`. -/
def canFetchRSS (cfg : SchedulerConfig) (s : SchedulerState) (now : Int) : Bool :=
  now - s.lastRSSFetch ≥ cfg.minFetchInterval

/-- `canRunAnalysis()`. -/
def canRunAnalysis (cfg : SchedulerConfig) (s : SchedulerState) (now : Int) : Bool :=
  now - s.lastAnalysis ≥ cfg.minAnalysisInterval

/-- `isDataStale()`. -/
def isDataStale (cfg : SchedulerConfig) (s : SchedulerState) (now : Int) : Bool :=
  now - s.lastAnalysis ≥ cfg.staleDataThreshold

/-- `isCurrentlyProcessing()`: reads the flag and lazily clears a stuck
processing state older than `maxProcessingTime`. -/
def isCurrentlyProcessing (cfg : SchedulerConfig) (s : SchedulerState)
    (now : Int) : Bool × SchedulerState :=
  if s.isProcessing = false then (false, s)
  else
    match s.processStartTime with
    | some start =>
      if now - start > cfg.maxProcessingTime then
        (false, { s with isProcessing := false, processStartTime := none })
      else (true, s)
    | none => (true, s)

/-- `startRSSFetch()` / `startAnalysis()` (identical bodies). -/
def startProcessing (s : SchedulerState) (now : Int) : SchedulerState :=
  { s with isProcessing := true, processStartTime := some now }

/-- `completeRSSFetch()`: records the fetch completion time and bumps the
counter.  Note that it does not touch `isProcessing`. -/
def completeRSSFetch (s : SchedulerState) (now : Int) : SchedulerState :=
  { s with lastRSSFetch := now, fetchCount := s.fetchCount + 1,
           lastFetchDate := now }

/-- `completeAnalysis()`: records the analysis completion time and clears
the processing state. -/
def completeAnalysis (s : SchedulerState) (now : Int) : SchedulerState :=
  { s with lastAnalysis := now, isProcessing := false,
           processStartTime := none }

/-- `failProcessing()`. -/
def failProcessing (s : SchedulerState) : SchedulerState :=
  { s with isProcessing := false, processStartTime := none }

/-- The four scheduler decisions. -/
inductive SchedulerAction where
  | fetch_and_analyze
  | fetch_only
  | serve_cache
  | wait
deriving Repr, DecidableEq

/-- `getNextAction()`: the decision cascade from the source, returning the
action together with the (possibly self-healed) state. -/
def getNextAction (cfg : SchedulerConfig) (s : SchedulerState) (now : Int) :
    SchedulerAction × SchedulerState :=
  let p := isCurrentlyProcessing cfg s now
  if p.1 then (SchedulerAction.wait, p.2)
  else if isDataStale cfg p.2 now && canRunAnalysis cfg p.2 now then
    (SchedulerAction.fetch_and_analyze, p.2)
  else if canFetchRSS cfg p.2 now && !canRunAnalysis cfg p.2 now then
    (SchedulerAction.fetch_only, p.2)
  else if canFetchRSS cfg p.2 now && canRunAnalysis cfg p.2 now then
    (SchedulerAction.fetch_and_analyze, p.2)
  else (SchedulerAction.serve_cache, p.2)

/-! ## API credential pool (`api-pool.ts`, class `APIKeyPool`) -/

/-- Per-credential health record (`interface APIKeyStatus`).  The derived
float statistic `successRate` is display-only and never read by control
flow, so it is not modelled. -/
structure KeyStatus where
  key : String
  index : Nat
  isHealthy : Bool
  requestCount : Nat
  lastUsed : Int
  cooldownUntil : Int
  errorCount : Nat
deriving Repr, DecidableEq

/-- The pool: the configured key list, the status map (insertion order) and
the round-robin cursor. -/
structure APIKeyPool where
  keys : List String
  keyStatus : List (String × KeyStatus)
  currentIndex : Nat
deriving Repr, DecidableEq

/-- `MAX_ERRORS_BEFORE_COOLDOWN`. -/
def MAX_ERRORS_BEFORE_COOLDOWN : Nat := 3

/-- The running minimum of `getLeastCooldownKey`: `minCooldown` starts at
`Infinity` (`none`) and is replaced on a strict `<`. -/
def leastCooldownAux (best : Option (String × Int)) :
    List (String × KeyStatus) → Option (String × Int)
  | [] => best
  | (k, st) :: rest =>
    match best with
    | none => leastCooldownAux (some (k, st.cooldownUntil)) rest
    | some (bk, m) =>
      if st.cooldownUntil < m then
        leastCooldownAux (some (k, st.cooldownUntil)) rest
      else
        leastCooldownAux (some (bk, m)) rest

/-- `getLeastCooldownKey()`: the key whose `cooldownUntil` is smallest (the
first such key in map order), or `null` on an empty map. -/
def getLeastCooldownKey (status : List (String × KeyStatus)) : Option String :=
  (leastCooldownAux none status).map Prod.fst

/-- One round of the `while (attempts < maxAttempts)` loop of
`getNextKey()`, with `fuel` counting the remaining attempts. -/
def getNextKeyLoop (now : Int) : APIKeyPool → Nat → Option String × APIKeyPool
  | p, 0 => (getLeastCooldownKey p.keyStatus, p)
  | p, fuel + 1 =>
    let key := p.keys.getD p.currentIndex ""
    let p1 := { p with currentIndex := (p.currentIndex + 1) % p.keys.length }
    match mapGet p1.keyStatus key with
    | none => getNextKeyLoop now p1 fuel
    | some st =>
      if st.cooldownUntil > now then getNextKeyLoop now p1 fuel
      else if !st.isHealthy && st.errorCount ≥ MAX_ERRORS_BEFORE_COOLDOWN then
        -- cooldown has expired here, so the status is reset before skipping
        let stReset := { st with isHealthy := true, errorCount := 0 }
        let p2 :=
          if st.cooldownUntil ≤ now then
            { p1 with keyStatus := mapSet p1.keyStatus key stReset }
          else p1
        getNextKeyLoop now p2 fuel
      else
        let stUsed := { st with requestCount := st.requestCount + 1, lastUsed := now }
        (some key, { p1 with keyStatus := mapSet p1.keyStatus key stUsed })

/-- `getNextKey()`: `null` on an empty pool, else up to `2 * keys.length`
round-robin attempts, falling back to the least-cooldown key. -/
def getNextKey (p : APIKeyPool) (now : Int) : Option String × APIKeyPool :=
  if p.keys.length = 0 then (none, p)
  else getNextKeyLoop now p (p.keys.length * 2)

/-! ## News items (`types.ts`, `interface NewsItem`) -/

/-- A news item.  `pubDate` is the parse result of the ISO date string
(`none` when `new Date(s)` is invalid); optional fields are `Option`. -/
structure NewsItem where
  id : String
  title : String
  link : String
  pubDate : Option Int
  source : String
  sourceTier : Option String
  contentSnippet : String
  content : String
  imageUrl : Option String
  category : Option String
  summary : Option String
  sentiment : Option String
  relevanceScore : Option Int
  tags : Option (List String)
  priority : Option String
  isBreaking : Option Bool
  relatedModels : Option (List String)
  relatedCompanies : Option (List String)
  technicalImpact : Option String
  actionable : Option Bool
deriving Repr, DecidableEq

/-! ## Classifier (`groq-advanced.ts`) -/

/-- `KNOWN_MODELS`. -/
def KNOWN_MODELS : List String :=
  ["GPT-4", "GPT-4o", "GPT-4.5", "GPT-5", "o1", "o3", "o1-pro", "o1-mini",
   "Claude", "Claude 3", "Claude 3.5", "Claude 4", "Sonnet", "Opus", "Haiku",
   "Gemini", "Gemini 2", "Gemini 2.0", "Gemini Pro", "Gemini Ultra",
   "Gemini Flash", "Gemma", "Gemma 2",
   "Llama", "Llama 3", "Llama 3.1", "Llama 3.2", "Llama 3.3", "Llama 4",
   "CodeLlama",
   "Mistral", "Mixtral", "Codestral", "Pixtral", "Mistral Large",
   "Mistral Small",
   "Qwen", "Qwen 2", "Qwen 2.5", "QwQ", "DeepSeek", "DeepSeek-V3",
   "DeepSeek-R1",
   "Phi-4", "Phi-3", "Phi-3.5",
   "Codex", "StarCoder", "StarCoder2", "CodeGen", "WizardCoder", "Magicoder",
   "GPT-4V", "GPT-4o", "Claude 3 Vision", "Gemini Vision", "LLaVA", "Qwen-VL",
   "Sora", "DALL-E", "DALL-E 3", "Midjourney", "Midjourney v6",
   "Stable Diffusion", "SDXL", "FLUX", "Flux.1",
   "Runway", "Kling", "Pika", "Luma", "HeyGen", "Synthesia"]

/-- `KNOWN_IDES`. -/
def KNOWN_IDES : List String :=
  ["Cursor", "Cursor IDE", "Cursor AI",
   "Windsurf", "Codeium", "Supermaven",
   "GitHub Copilot", "Copilot", "Copilot Chat", "Copilot Workspace",
   "Tabnine",
   "Replit", "Replit Agent", "Ghostwriter",
   "Bolt", "bolt.new", "StackBlitz",
   "v0", "v0.dev",
   "Lovable", "Devin", "Devon",
   "Claude Code", "Aider", "Cody", "Sourcegraph Cody",
   "Continue", "Continuedev",
   "Amazon Q", "CodeWhisperer",
   "VS Code", "Visual Studio Code", "VSCode",
   "JetBrains AI", "IntelliJ", "PyCharm", "WebStorm",
   "Zed", "Zed Editor",
   "Neovim", "Vim"]

/-- `AI_FRAMEWORKS`. -/
def AI_FRAMEWORKS : List String :=
  ["LangChain", "LangGraph", "LlamaIndex", "CrewAI", "AutoGen",
   "Autogen Studio",
   "Semantic Kernel", "Haystack", "DSPy", "Instructor",
   "Pydantic AI", "Marvin", "Mirascope",
   "MCP", "Model Context Protocol", "Claude MCP",
   "Function Calling", "Tool Use", "Tool Calling",
   "RAG", "Retrieval Augmented", "Vector Database", "Embeddings",
   "Pinecone", "Weaviate", "Chroma", "ChromaDB", "Qdrant", "Milvus",
   "pgvector",
   "vLLM", "TensorRT", "TensorRT-LLM", "ONNX", "Ollama", "LM Studio",
   "LocalAI",
   "Groq", "Together AI", "Fireworks AI", "Anyscale", "Modal", "Replicate",
   "Prompt Engineering", "Chain of Thought", "CoT", "Few-shot", "Zero-shot",
   "RLHF", "DPO", "Fine-tuning", "LoRA", "QLoRA"]

/-- `KNOWN_COMPANIES`. -/
def KNOWN_COMPANIES : List String :=
  ["OpenAI", "Anthropic", "Google", "Google AI", "DeepMind", "Meta AI",
   "Meta",
   "Microsoft", "Microsoft AI", "xAI", "X.AI",
   "Mistral AI", "Mistral", "Cohere", "AI21", "AI21 Labs", "Stability AI",
   "Hugging Face", "HuggingFace",
   "Together AI", "Groq", "Replicate", "Modal", "Anyscale", "Fireworks",
   "Vercel", "Supabase", "Neon", "Cloudflare", "Netlify",
   "Anysphere", "Cursor", "GitHub", "Sourcegraph", "Replit",
   "Codeium", "Tabnine", "Cognition", "Devin"]

/-- The lower-cased `` `${item.title} ${item.contentSnippet}` `` text used by
the keyword detectors. -/
def itemText (item : NewsItem) : List Char :=
  lcStr (item.title ++ " " ++ item.contentSnippet).data

/-- `list.some(kw => text.includes(kw.toLowerCase()))`. -/
def anyKW (text : List Char) (kws : List String) : Bool :=
  kws.any (fun kw => containsL (lcStr kw.data) text)

/-- `text.includes(kw)` for an already lower-case literal needle. -/
def hasSub (text : List Char) (kw : String) : Bool :=
  containsL kw.data text

/-- `String.prototype.slice(0, n)`. -/
def sliceStr (s : String) (n : Nat) : String := ⟨s.data.take n⟩

/-- `validCategories` in `normalizeAnalysis`. -/
def validCategories : List String :=
  ["model_launch", "ide_update", "ide_launch", "video_ai", "image_ai",
   "agent", "api", "feature", "research", "tutorial", "market", "other"]

/-- `validPriorities` in `normalizeAnalysis`. -/
def validPriorities : List String := ["breaking", "high", "normal", "low"]

/-- `detectCategory(item)`: the keyword cascade from the source.  The
`KNOWN_MODELS` branch only returns when a launch word is present and
otherwise falls through. -/
def detectCategory (item : NewsItem) : String :=
  let text := itemText item
  if anyKW text KNOWN_IDES then
    if hasSub text "launch" || hasSub text "introducing" ||
        hasSub text "announce" || hasSub text "new" then "ide_launch"
    else "ide_update"
  else if anyKW text AI_FRAMEWORKS then "agent"
  else if anyKW text KNOWN_MODELS &&
      (hasSub text "launch" || hasSub text "release" ||
       hasSub text "introducing" || hasSub text "announce") then
    "model_launch"
  else if hasSub text "video" &&
      (hasSub text "generation" || hasSub text "sora" ||
       hasSub text "runway") then "video_ai"
  else if (hasSub text "image" || hasSub text "diffusion") &&
      hasSub text "generat" then "image_ai"
  else if hasSub text "api" || hasSub text "endpoint" ||
      hasSub text "sdk" then "api"
  else if hasSub text "paper" || hasSub text "arxiv" ||
      hasSub text "benchmark" then "research"
  else if hasSub text "how to" || hasSub text "tutorial" ||
      hasSub text "guide" || hasSub text "building" then "tutorial"
  else if hasSub text "funding" || hasSub text "acquisition" ||
      hasSub text "million" || hasSub text "billion" then "market"
  else "feature"

/-- `breakingKeywords` in `detectPriority`. -/
def breakingKeywords : List String :=
  ["gpt-5", "gpt5", "claude 4", "claude4", "gemini 2", "llama 4",
   "cursor", "windsurf", "copilot x",
   "introducing", "announcing", "launch"]

/-- `detectPriority(item, category)`. -/
def detectPriority (item : NewsItem) (category : String) : String :=
  let text := itemText item
  if breakingKeywords.any (fun kw => hasSub text kw) &&
      (category = "model_launch" || category = "ide_launch" ||
       category = "ide_update") then "breaking"
  else if category = "ide_update" || category = "ide_launch" ||
      category = "agent" then "high"
  else if anyKW text KNOWN_IDES then "high"
  else if hasSub text "opinion" || hasSub text "thoughts" ||
      hasSub text "perspective" then "low"
  else "normal"

/-- The JSON object returned by the external classifier, after
`JSON.parse`.  String fields default to `""` when absent (both are falsy
where the source tests them); array and numeric fields are `Option` so the
`Array.isArray` and `|| 5` guards can be modelled. -/
structure RawResult where
  category : String
  priority : String
  summary : String
  tags : Option (List String)
  relatedModels : Option (List String)
  relatedCompanies : Option (List String)
  relevanceScore : Option Int
  sentiment : String
  actionable : Bool
  technicalImpact : String
deriving Repr, DecidableEq

/-- The `Partial<NewsItem>` produced by one analysis.  `technicalImpact` is
`none` when the key is absent from the object (the fallback path), so that
the later object spread keeps the item's own value. -/
structure Analysis where
  category : String
  priority : String
  summary : String
  tags : List String
  relatedModels : List String
  relatedCompanies : List String
  relevanceScore : Int
  sentiment : String
  actionable : Bool
  technicalImpact : Option String
  isBreaking : Bool
deriving Repr, DecidableEq

/-- `normalizeAnalysis(result, item)`: validation of category/priority with
heuristic fallback, the official-launch boost, the IDE boost, and field
normalisation. -/
def normalizeAnalysis (result : RawResult) (item : NewsItem) : Analysis :=
  let category :=
    if validCategories.contains result.category then result.category
    else detectCategory item
  let priority0 :=
    if validPriorities.contains result.priority then result.priority
    else detectPriority item category
  let priority1 :=
    if item.sourceTier = some "official" &&
        (category = "model_launch" || category = "ide_launch") then "breaking"
    else priority0
  let text := itemText item
  let priority :=
    if anyKW text KNOWN_IDES then
      (if priority1 = "normal" then "high" else priority1)
    else priority1
  { category := category
    priority := priority
    summary :=
      if result.summary = "" then sliceStr item.contentSnippet 150 ++ "..."
      else result.summary
    tags := (result.tags.getD []).take 4
    relatedModels := result.relatedModels.getD []
    relatedCompanies := result.relatedCompanies.getD []
    relevanceScore :=
      min 10 (max 1 (match result.relevanceScore with
        | some v => if v = 0 then 5 else v
        | none => 5))
    sentiment :=
      if result.sentiment = "positive" || result.sentiment = "neutral" ||
          result.sentiment = "negative" then result.sentiment
      else "neutral"
    actionable := result.actionable
    technicalImpact := some result.technicalImpact
    isBreaking := priority = "breaking" }

/-- `extractBasicTags(item)`. -/
def extractBasicTags (item : NewsItem) : List String :=
  let text := itemText item
  let tags :=
    (if hasSub text "llm" || hasSub text "language model" then ["LLM"] else [])
    ++ (if hasSub text "api" then ["API"] else [])
    ++ (if hasSub text "python" then ["Python"] else [])
    ++ (if hasSub text "javascript" || hasSub text "typescript" then
          ["JavaScript"] else [])
    ++ (if hasSub text "react" || hasSub text "next.js" then ["React"] else [])
    ++ (if hasSub text "rag" then ["RAG"] else [])
    ++ (if hasSub text "agent" then ["Agents"] else [])
    ++ (if hasSub text "fine-tun" then ["Fine-tuning"] else [])
    ++ (if hasSub text "prompt" then ["Prompting"] else [])
    ++ (if hasSub text "embedding" then ["Embeddings"] else [])
    ++ (if hasSub text "vector" then ["Vector DB"] else [])
  tags.take 4

/-- `createFallbackAnalysis(item)`: the heuristic path used when no API key
is available or the classifier call fails.  Note there is no
official-launch boost here and `technicalImpact` is not set. -/
def createFallbackAnalysis (item : NewsItem) : Analysis :=
  let category := detectCategory item
  let priority := detectPriority item category
  { category := category
    priority := priority
    summary := sliceStr item.contentSnippet 150 ++ "..."
    tags := extractBasicTags item
    relatedModels :=
      (KNOWN_MODELS.filter (fun m =>
        containsL (lcStr m.data) (lcStr item.title.data) ||
        containsL (lcStr m.data) (lcStr item.contentSnippet.data))).take 3
    relatedCompanies :=
      (KNOWN_COMPANIES.filter (fun c =>
        containsL (lcStr c.data) (lcStr item.title.data) ||
        containsL (lcStr c.data) (lcStr item.contentSnippet.data))).take 3
    relevanceScore := 5
    sentiment := "neutral"
    actionable := false
    technicalImpact := none
    isBreaking := priority = "breaking" }

/-- The terminal outcome of `analyzeNewsItem`'s interaction with cache and
API: a cache hit, a successful completion (parsed JSON), no available key,
or a failed call (after retries). -/
inductive FetchOutcome where
  | cached (a : Analysis)
  | success (result : RawResult)
  | noKey
  | failure
deriving Repr, DecidableEq

/-- Is the outcome a cache hit (the pre-filter in `batchAnalyze`)? -/
def FetchOutcome.isCached : FetchOutcome → Bool
  | FetchOutcome.cached _ => true
  | _ => false

/-- `analyzeNewsItem(item)`: the analysis actually returned on each path.
Retries on rate limits terminate in either a success or the fallback, so the
recursion collapses onto the terminal outcome. -/
def analyzeNewsItem (item : NewsItem) : FetchOutcome → Analysis
  | FetchOutcome.cached a => a
  | FetchOutcome.success result => normalizeAnalysis result item
  | FetchOutcome.noKey => createFallbackAnalysis item
  | FetchOutcome.failure => createFallbackAnalysis item

/-- The object spread `{ ...item, ...analysis }`: every key present in the
analysis overrides the item's field. -/
def applyAnalysis (item : NewsItem) (a : Analysis) : NewsItem :=
  { item with
    category := some a.category
    priority := some a.priority
    summary := some a.summary
    tags := some a.tags
    relatedModels := some a.relatedModels
    relatedCompanies := some a.relatedCompanies
    relevanceScore := some a.relevanceScore
    sentiment := some a.sentiment
    actionable := some a.actionable
    technicalImpact :=
      match a.technicalImpact with
      | some t => some t
      | none => item.technicalImpact
    isBreaking := some a.isBreaking }

/-- `priorityOrder[p || 'normal']`: `none` models the `undefined` lookup on
a string outside the table. -/
def priorityRank (p : Option String) : Option Int :=
  let s := p.getD "normal"
  if s = "breaking" then some 0
  else if s = "high" then some 1
  else if s = "normal" then some 2
  else if s = "low" then some 3
  else none

/-- The `allResults.sort` comparator of `batchAnalyze`: priority rank, then
relevance score descending, then publication date descending.  A `NaN`
produced by an undefined rank or an invalid date makes the comparator
return `0` (the JS sort treats a `NaN` comparator value as equality). -/
def batchCmp (a b : NewsItem) : Int :=
  let pA := priorityRank a.priority
  let pB := priorityRank b.priority
  if pA ≠ pB then
    match pA, pB with
    | some x, some y => x - y
    | _, _ => 0
  else
    let sA := a.relevanceScore.getD 0
    let sB := b.relevanceScore.getD 0
    if sA ≠ sB then sB - sA
    else
      match b.pubDate, a.pubDate with
      | some db, some da => db - da
      | _, _ => 0

/-- The comparator as a Boolean `≤`, as consumed by a sort. -/
def batchLE (a b : NewsItem) : Bool := decide (batchCmp a b ≤ 0)

/-- The final relevance floor of `batchAnalyze`: keep items with a truthy
relevance score of at least 4, official-tier items, and breaking or high
priority items. -/
def keepItem (item : NewsItem) : Bool :=
  (match item.relevanceScore with
   | some v => !(v = 0) && decide (v ≥ 4)
   | none => false)
  || item.sourceTier = some "official"
  || item.priority = some "breaking"
  || item.priority = some "high"

/-- `batchAnalyze` up to and including the sort: cache hits first (in input
order), then the freshly analysed items (in input order), sorted by
`batchCmp` (the JS sort is stable). -/
def batchSorted (inputs : List (NewsItem × FetchOutcome)) : List NewsItem :=
  let cachedResults :=
    (inputs.filter (fun x => x.2.isCached)).map
      (fun x => applyAnalysis x.1 (analyzeNewsItem x.1 x.2))
  let results :=
    (inputs.filter (fun x => !x.2.isCached)).map
      (fun x => applyAnalysis x.1 (analyzeNewsItem x.1 x.2))
  (cachedResults ++ results).mergeSort batchLE

/-- `batchAnalyze(items)`: merge, sort, apply the relevance floor. -/
def batchAnalyze (inputs : List (NewsItem × FetchOutcome)) : List NewsItem :=
  (batchSorted inputs).filter keepItem

/-! ## Aggregator dedup/filter (`sources/index.ts`, `deduplicateAndFilter`) -/

/-- JS `\w` on the ASCII range: letters, digits, underscore. -/
def isWordChar (c : Char) : Bool :=
  ('a' ≤ c && c ≤ 'z') || ('A' ≤ c && c ≤ 'Z') ||
  ('0' ≤ c && c ≤ '9') || c = '_'

/-- JS `\s` on the characters that occur here. -/
def jsSpace (c : Char) : Bool :=
  c = ' ' || c = '\t' || c = '\n' || c = '\r'

/-- One character of the `[a-z\s\-]` class (with the `i` flag). -/
def isClassChar (c : Char) : Bool :=
  ('a' ≤ c && c ≤ 'z') || ('A' ≤ c && c ≤ 'Z') || c = '-' || jsSpace c

/-- A hexadecimal character of `[a-f0-9]` (with the `i` flag). -/
def isHexChar (c : Char) : Bool :=
  ('a' ≤ c && c ≤ 'f') || ('A' ≤ c && c ≤ 'F') || ('0' ≤ c && c ≤ '9')

/-- Core of `v?\d+\.\d+\.\d+` at the current position: optional `v`, then
three maximal nonempty digit runs separated by dots.  Returns the second
and third runs and the remainder. -/
def verCore (l : List Char) : Option (List Char × List Char × List Char) :=
  let l1 := match l with
    | 'v' :: t => t
    | _ => l
  let d1 := l1.takeWhile Char.isDigit
  let r1 := l1.dropWhile Char.isDigit
  if d1.isEmpty then none
  else
    match r1 with
    | '.' :: r2 =>
      let d2 := r2.takeWhile Char.isDigit
      let r3 := r2.dropWhile Char.isDigit
      if d2.isEmpty then none
      else
        match r3 with
        | '.' :: r4 =>
          let d3 := r4.takeWhile Char.isDigit
          let r5 := r4.dropWhile Char.isDigit
          if d3.isEmpty then none else some (d2, d3, r5)
        | _ => none
    | _ => none

/-- The `\b` after the final digit run: end of input or a non-word
character. -/
def boundaryAfter : List Char → Bool
  | [] => true
  | c :: _ => !isWordChar c

/-- Scan for a match of a position-local matcher at any position whose
preceding character is not a word character (the leading `\b`; every match
here starts with a word character). -/
def scanBoundary (f : List Char → Bool) : Bool → List Char → Bool
  | _, [] => false
  | prevWord, c :: t =>
    (!prevWord && f (c :: t)) || scanBoundary f (isWordChar c) t

/-- `title.match(/\bv?\d+\.\d+\.\d+\b/)`. -/
def hasVersionTriple (title : List Char) : Bool :=
  scanBoundary (fun l =>
    match verCore l with
    | some (_, _, rest) => boundaryAfter rest
    | none => false) false title

/-- `title.match(/\bv?\d+\.0\.0\b/)`: the second and third runs are the
literal `0`. -/
def hasZeroVersion (title : List Char) : Bool :=
  scanBoundary (fun l =>
    match verCore l with
    | some (d2, d3, rest) => d2 = ['0'] && d3 = ['0'] && boundaryAfter rest
    | none => false) false title

/-- At least four leading digits (`\d{4,}` after the literal `b`). -/
def fourDigits (l : List Char) : Bool :=
  decide (4 ≤ (l.takeWhile Char.isDigit).length)

/-- The tail of `/^[a-z\s\-]+\s*b\d{4,}/i` once at least one class
character has been consumed: either a `b` with four digits starts here, or
another class character is consumed. -/
def commitARest : List Char → Bool
  | [] => false
  | c :: t => (c = 'b' && fourDigits t) || (isClassChar c && commitARest t)

/-- `title.match(/^[a-z\s\-]+\s*b\d{4,}/i)` (the `\s*` is absorbed by the
class, which already contains `\s`). -/
def commitA : List Char → Bool
  | [] => false
  | c :: t => isClassChar c && commitARest t

/-- `\s*-?\s*[a-f0-9]{7,}$`: optional spaced dash, then a hex run of at
least seven characters ending the string. -/
def sepHexEnd (l : List Char) : Bool :=
  let l1 := l.dropWhile jsSpace
  let l2 := match l1 with
    | '-' :: t => t
    | _ => l1
  let l3 := l2.dropWhile jsSpace
  !l3.isEmpty && l3.all isHexChar && decide (7 ≤ l3.length)

/-- A first hex group of `7 ≤ k` characters taken from the maximal hex run
starting here, whose remainder matches `\s*-?\s*[a-f0-9]{7,}$`. -/
def hexSplit (l : List Char) : Bool :=
  let run := l.takeWhile isHexChar
  let rest := l.dropWhile isHexChar
  (List.range (run.length + 1)).any
    (fun k => decide (7 ≤ k) && sepHexEnd (run.drop k ++ rest))

/-- The tail of `/^[a-z\s\-]+\s*[a-f0-9]{7,}\s*-?\s*[a-f0-9]{7,}$/i` once at
least one class character has been consumed. -/
def commitBRest : List Char → Bool
  | [] => false
  | c :: t => (isHexChar c && hexSplit (c :: t)) || (isClassChar c && commitBRest t)

/-- `title.match(/^[a-z\s\-]+\s*[a-f0-9]{7,}\s*-?\s*[a-f0-9]{7,}$/i)`. -/
def commitB : List Char → Bool
  | [] => false
  | c :: t => isClassChar c && commitBRest t

/-- `skipPatterns`. -/
def skipPatterns : List String :=
  ["chore:", "chore(", "deps:", "ci:", "test:", "docs:",
   "bump version", "bump to", "dependency update",
   "refactor:", "cleanup", "typo", "lint",
   "merge pull request", "merge branch"]

/-- The lower-cased title used by the aggregator. -/
def aggTitle (item : NewsItem) : List Char := lcStr item.title.data

/-- The lower-cased `` `${title} ${content}` `` of the aggregator
(`contentSnippet || ''` is the identity on strings). -/
def aggFullText (item : NewsItem) : List Char :=
  aggTitle item ++ ' ' :: lcStr item.contentSnippet.data

/-- STEP 1 of `deduplicateAndFilter`: the noise filter. -/
def passesNoise (item : NewsItem) : Bool :=
  let title := aggTitle item
  let fullText := aggFullText item
  let versionNoise :=
    hasVersionTriple title && !hasZeroVersion title &&
    !hasSub fullText "major" && !hasSub fullText "breaking" &&
    !hasSub fullText "new feature" && !hasSub fullText "introducing"
  if versionNoise then false
  else if commitA title then false
  else if commitB title then false
  else if skipPatterns.any (fun p => containsL p.data title) then false
  else if title.length < 15 then false
  else if item.link = "" then false
  else true

/-- `tierOrder[item.sourceTier || 'aggregator']`; `none` is the `undefined`
lookup on a tier string outside the table. -/
def tierRank (t : Option String) : Option Int :=
  let s := t.getD "aggregator"
  if s = "official" then some 0
  else if s = "trusted" then some 1
  else if s = "community" then some 2
  else if s = "aggregator" then some 3
  else none

/-- `officialSources` in the scoring step. -/
def officialSources : List String :=
  ["openai", "anthropic", "google ai", "deepmind", "meta ai", "mistral"]

/-- `modelKeywords` in the scoring step. -/
def modelKeywords : List String :=
  ["gpt-5", "claude 4", "gemini 3", "llama 4", "grok", "kimi", "deepseek"]

/-- `ideKeywords` in the scoring step. -/
def ideKeywords : List String :=
  ["cursor", "copilot", "windsurf", "codeium", "vs code", "vscode"]

/-- `frameworkKeywords` in the scoring step. -/
def frameworkKeywords : List String :=
  ["langchain", "llamaindex", "crewai", "autogen", "mcp", "rag"]

/-- All scoring terms of STEP 2 except the source-tier bonus. -/
def contentScore (item : NewsItem) : Int :=
  let fullText := aggFullText item
  (if officialSources.any
      (fun s => containsL s.data (lcStr item.source.data)) then 50 else 0)
  + (if modelKeywords.any (fun m => hasSub fullText m) then 40 else 0)
  + (if ideKeywords.any (fun i => hasSub fullText i) then 30 else 0)
  + (if frameworkKeywords.any (fun f => hasSub fullText f) then 25 else 0)
  + (if hasSub fullText "launch" || hasSub fullText "introducing" ||
        hasSub fullText "announcing" || hasSub fullText "release"
     then 20 else 0)
  + (if hasSub fullText "prompt engineering" || hasSub fullText "prompting"
     then 25 else 0)
  + (if hasSub fullText "ai engineer" || hasSub fullText "gen ai" ||
        hasSub fullText "generative ai" then 20 else 0)
  - (if hasSub fullText "bug fix" || hasSub fullText "patch" then 30 else 0)
  - (if hasSub fullText "minor" && !hasSub fullText "minor feature"
     then 20 else 0)

/-- The full score of one item: the tier bonus plus the content terms, or
`none` (JS `NaN`) when the tier string is outside the table. -/
def itemScore (item : NewsItem) : Option Int :=
  (tierRank item.sourceTier).map (fun t => (3 - t) * 20 + contentScore item)

/-- One element of the `scored` array: the item with its score. -/
abbrev ScoredPair := NewsItem × Option Int

/-- The `scored.sort` comparator: score descending, then date descending;
a `NaN` in either slot makes the comparator return `0`. -/
def aggCmp (a b : ScoredPair) : Int :=
  match b.2, a.2 with
  | some sb, some sa =>
    if sb ≠ sa then sb - sa
    else
      match b.1.pubDate, a.1.pubDate with
      | some db, some da => db - da
      | _, _ => 0
  | _, _ => 0

/-- The aggregator comparator as a Boolean `≤`. -/
def aggLE (a b : ScoredPair) : Bool := decide (aggCmp a b ≤ 0)

/-- `item.link.toLowerCase().replace(/https?:\/\//, '')`: drop the first
protocol occurrence (at a given position `https://` wins over `http://`
by greediness of `s?`). -/
def stripProtoAt (l : List Char) : Option (List Char) :=
  if startsWithL "https://".data l then some (l.drop 8)
  else if startsWithL "http://".data l then some (l.drop 7)
  else none

/-- Remove the first match of a position-local pattern, keeping everything
else (JS `String.prototype.replace` with a non-global regex and an empty
replacement). -/
def removeFirstMatch (f : List Char → Option (List Char)) : List Char → List Char
  | [] =>
    match f [] with
    | some r => r
    | none => []
  | c :: t =>
    match f (c :: t) with
    | some r => r
    | none => c :: removeFirstMatch f t

/-- `.replace(/\/$/, '')`: drop one trailing slash. -/
def dropTrailingSlash (l : List Char) : List Char :=
  if l.getLast? = some '/' then l.dropLast else l

/-- The URL normalisation of the dedup step. -/
def normalizeUrl (link : String) : List Char :=
  dropTrailingSlash
    (removeFirstMatch
      (fun s => if startsWithL "www.".data s then some (s.drop 4) else none)
      (removeFirstMatch stripProtoAt (lcStr link.data)))

/-- The title normalisation of the dedup step: lower-case, keep only
`[a-z0-9]`, first 50 characters. -/
def normalizeTitle (title : String) : List Char :=
  ((lcStr title.data).filter
    (fun c => ('a' ≤ c && c ≤ 'z') || ('0' ≤ c && c ≤ '9'))).take 50

/-- STEP 3 of `deduplicateAndFilter`: the stateful dedup filter over the
sorted scored list.  `isAfter(date, cutoffDate)` is a strict comparison and
an invalid date fails the `isNaN` guard.  Note that an item dropped for a
duplicate title has already added its URL to `seenUrls`. -/
def dedupGo (cutoff : Int) (seenUrls seenTitles : List (List Char)) :
    List ScoredPair → List ScoredPair
  | [] => []
  | p :: rest =>
    let item := p.1
    let dateOK := match item.pubDate with
      | some d => decide (cutoff < d)
      | none => false
    if !dateOK then dedupGo cutoff seenUrls seenTitles rest
    else
      let u := normalizeUrl item.link
      if seenUrls.contains u then dedupGo cutoff seenUrls seenTitles rest
      else
        let t := normalizeTitle item.title
        if decide (10 < t.length) && seenTitles.contains t then
          dedupGo cutoff (u :: seenUrls) seenTitles rest
        else p :: dedupGo cutoff (u :: seenUrls) (t :: seenTitles) rest

/-- `deduplicateAndFilter(items, cutoffDate)`: noise filter, scoring,
stable sort by score then recency, stateful dedup, top 50. -/
def deduplicateAndFilter (items : List NewsItem) (cutoff : Int) : List NewsItem :=
  let filtered := items.filter passesNoise
  let scored := filtered.map (fun item => (item, itemScore item))
  let sorted := scored.mergeSort aggLE
  let deduped := dedupGo cutoff [] [] sorted
  (deduped.map (fun p => p.1)).take 50

/-! ## Helper lemmas on the association-list maps -/

theorem mapGet_mapSet_self {β : Type} (m : List (String × β)) (k : String) (v : β) :
    mapGet (mapSet m k v) k = some v := by
  induction m with
  | nil => simp [mapSet, mapGet]
  | cons hd tl ih =>
    obtain ⟨k', v'⟩ := hd
    by_cases hk : k' = k <;> simp [mapSet, mapGet, hk, ih]

theorem mapGet_eq_none_of_not_mem {β : Type} (m : List (String × β)) (k : String)
    (h : k ∉ m.map Prod.fst) : mapGet m k = none := by
  induction m with
  | nil => rfl
  | cons hd tl ih =>
    obtain ⟨k', v'⟩ := hd
    simp only [List.map_cons, List.mem_cons] at h
    push_neg at h
    simp only [mapGet]
    rw [if_neg (fun hh => h.1 hh.symm), ih h.2]

theorem mapGet_mapDelete_self {β : Type} (m : List (String × β)) (k : String)
    (h : (m.map Prod.fst).Nodup) : mapGet (mapDelete m k) k = none := by
  induction m with
  | nil => rfl
  | cons hd tl ih =>
    obtain ⟨k', v'⟩ := hd
    simp only [List.map_cons, List.nodup_cons] at h
    simp only [mapDelete]
    by_cases hk : k' = k
    · rw [if_pos hk]
      exact mapGet_eq_none_of_not_mem tl k (hk ▸ h.1)
    · rw [if_neg hk]
      simp only [mapGet]
      rw [if_neg hk]
      exact ih h.2

theorem mapGet_mem {β : Type} :
    ∀ {m : List (String × β)} {k : String} {v : β},
      mapGet m k = some v → (k, v) ∈ m := by
  intro m
  induction m with
  | nil => intro k v h; simp [mapGet] at h
  | cons hd tl ih =>
    intro k v h
    obtain ⟨k', v'⟩ := hd
    simp only [mapGet] at h
    split at h
    · rename_i hk
      cases h
      subst hk
      exact List.mem_cons_self _ _
    · exact List.mem_cons_of_mem _ (ih h)

/-! ## Concrete fixtures used by counterexamples and witnesses -/

/-- A blank news item; fixtures override the relevant fields. -/
def baseItem : NewsItem :=
  { id := "", title := "", link := "", pubDate := none, source := "",
    sourceTier := none, contentSnippet := "", content := "", imageUrl := none,
    category := none, summary := none, sentiment := none,
    relevanceScore := none, tags := none, priority := none, isBreaking := none,
    relatedModels := none, relatedCompanies := none, technicalImpact := none,
    actionable := none }

/-- A cache holding one entry that expires at time 100. -/
def cacheC1 : AdvancedCache Int :=
  { memoryCache := [("k", ⟨42, 0, 100, none⟩)], ttl := 1000,
    hits := 0, misses := 0 }

/-- An empty integer cache. -/
def emptyCacheInt : AdvancedCache Int :=
  { memoryCache := [], ttl := 5, hits := 0, misses := 0 }

/-! ## C1 — TTL cache expiry semantics -/

/-- The claim as stated: `get(key)` returns none whenever `now ≥ expiry`,
with the expired entry evicted on that read, for all keys, always. -/
def ttlGetClaim : Prop :=
  ∀ (c : AdvancedCache Int) (key : String) (now : Int) (e : CacheEntry Int),
    mapGet c.memoryCache key = some e → e.expiresAt ≤ now →
    (c.get key now).1 = none

/-- C1 counterexample: at `now` equal to the expiry timestamp the source
test `entry.expiresAt < Date.now()` is false, so the entry is still
returned.  The claim fails on the one-entry cache `cacheC1` read at
`now = 100 = expiresAt`, where `get` returns the stored value `42`. -/
theorem c1_ttl_boundary_counterexample : ¬ ttlGetClaim := by
  intro h
  have h2 := h cacheC1 "k" 100 ⟨42, 0, 100, none⟩ (by decide) (by decide)
  exact absurd h2 (by decide)

/-- C1 amended: for every key, `get(key)` returns none whenever
`now > expiry` (strict), and the expired entry is evicted on that read. -/
theorem c1_ttl_expiry_amended {T : Type} (c : AdvancedCache T) (key : String)
    (now : Int) (hnodup : (c.memoryCache.map Prod.fst).Nodup)
    (hexp : ∀ e : CacheEntry T,
      mapGet c.memoryCache key = some e → e.expiresAt < now) :
    (c.get key now).1 = none ∧
      mapGet (c.get key now).2.memoryCache key = none := by
  cases hm : mapGet c.memoryCache key with
  | none =>
    refine ⟨by simp [AdvancedCache.get, hm], ?_⟩
    simp [AdvancedCache.get, hm]
  | some e =>
    have he := hexp e hm
    refine ⟨by simp [AdvancedCache.get, hm, he], ?_⟩
    simp only [AdvancedCache.get, hm, if_pos he]
    exact mapGet_mapDelete_self c.memoryCache key hnodup

/-- C1 witness: the amended theorem applied to `cacheC1` at `now = 101`. -/
theorem c1_ttl_expiry_amended_witness :
    (cacheC1.get "k" 101).1 = none ∧
      mapGet (cacheC1.get "k" 101).2.memoryCache "k" = none :=
  c1_ttl_expiry_amended cacheC1 "k" 101 (by decide)
    (fun e he => by
      rw [show mapGet cacheC1.memoryCache "k" = some ⟨42, 0, 100, none⟩
        from by decide] at he
      cases he
      decide)

/-! ## C10 — cache set/get round trip -/

/-- C10: for every key, value and TTL `t > 0`, `set(k, v, t)` followed by
`get(k)` with no intervening mutation and before `t` has elapsed returns
the freshly stored value. -/
theorem c10_cache_roundtrip {T : Type} (c : AdvancedCache T) (key : String)
    (v : T) (t : Int) (src : Option String) (now nowq : Int)
    (ht : 0 < t) (hq : nowq < now + t) :
    ((c.set key v (some t) src now).get key nowq).1 = some v := by
  have htne : ¬ (t = 0) := by omega
  have hset : mapGet ((c.set key v (some t) src now).memoryCache) key
      = some ⟨v, now, now + t, src⟩ := by
    simp only [AdvancedCache.set, htne, if_false]
    exact mapGet_mapSet_self c.memoryCache key _
  simp only [AdvancedCache.get, hset]
  rw [if_neg (by simp; omega)]

/-- C10 witness: store `7` for 10ms at time 0 and read it back at time 9. -/
theorem c10_cache_roundtrip_witness :
    ((emptyCacheInt.set "k" 7 (some 10) none 0).get "k" 9).1 = some 7 :=
  c10_cache_roundtrip emptyCacheInt "k" 7 10 none 0 9 (by decide) (by decide)

/-! ## C4 — scheduler decision at lastAnalysis = now − 20min -/

/-- The scheduler state of the claim at `now = 100000000`: analysis 20
minutes ago, RSS fetch 10 minutes ago (beyond the 5-minute interval). -/
def schedC4 : SchedulerState :=
  { lastRSSFetch := 99400000, lastAnalysis := 98800000, fetchCount := 0,
    lastFetchDate := 0, isProcessing := false, processStartTime := none }

/-- The claim as stated: with `lastAnalysis = now − 20min`,
`minAnalysisInterval = 15min` and `staleThreshold = 30min`, `nextAction()`
returns `fetch_only` when the fetch interval has passed and `serve_cache`
otherwise. -/
def schedulerC4Claim : Prop :=
  ∀ (cfg : SchedulerConfig) (s : SchedulerState) (now : Int),
    cfg.minAnalysisInterval = 15 * 60 * 1000 →
    cfg.staleDataThreshold = 30 * 60 * 1000 →
    s.lastAnalysis = now - 20 * 60 * 1000 →
    s.isProcessing = false →
    (canFetchRSS cfg s now = true →
      (getNextAction cfg s now).1 = SchedulerAction.fetch_only) ∧
    (canFetchRSS cfg s now = false →
      (getNextAction cfg s now).1 = SchedulerAction.serve_cache)

/-- C4 counterexample: 20 minutes ≥ the 15-minute interval, so analysis is
already allowed again and the source returns `fetch_and_analyze`, not
`fetch_only`, at the claimed state. -/
theorem c4_next_action_counterexample : ¬ schedulerC4Claim := by
  intro h
  have h2 := (h DEFAULT_CONFIG schedC4 100000000 (by decide) (by decide)
    (by decide) rfl).1 (by decide)
  exact absurd h2 (by decide)

/-- C4 amended: at that state (analysis due again but data not yet stale)
`nextAction()` returns `fetch_and_analyze` when the fetch interval has
passed, and `serve_cache` otherwise. -/
theorem c4_next_action_amended (cfg : SchedulerConfig) (s : SchedulerState)
    (now : Int)
    (hmin : cfg.minAnalysisInterval = 15 * 60 * 1000)
    (hstale : cfg.staleDataThreshold = 30 * 60 * 1000)
    (hlast : s.lastAnalysis = now - 20 * 60 * 1000)
    (hproc : s.isProcessing = false) :
    (canFetchRSS cfg s now = true →
      (getNextAction cfg s now).1 = SchedulerAction.fetch_and_analyze) ∧
    (canFetchRSS cfg s now = false →
      (getNextAction cfg s now).1 = SchedulerAction.serve_cache) := by
  have hproc2 : isCurrentlyProcessing cfg s now = (false, s) := by
    simp [isCurrentlyProcessing, hproc]
  have hstaleF : isDataStale cfg s now = false := by
    simp only [isDataStale, hstale, hlast, decide_eq_false_iff_not]
    omega
  have hcan : canRunAnalysis cfg s now = true := by
    simp only [canRunAnalysis, hmin, hlast, decide_eq_true_eq]
    omega
  constructor <;> intro hf <;>
    simp [getNextAction, hproc2, hstaleF, hcan, hf]

/-- C4 witness: the amended theorem evaluated at the state `schedC4` under
the default configuration. -/
theorem c4_next_action_amended_witness :
    (getNextAction DEFAULT_CONFIG schedC4 100000000).1 =
      SchedulerAction.fetch_and_analyze :=
  (c4_next_action_amended DEFAULT_CONFIG schedC4 100000000 (by decide)
    (by decide) (by decide) rfl).1 (by decide)

/-! ## C5 — completion operations and the processing flag -/

/-- A scheduler state that is currently processing. -/
def schedBusy : SchedulerState :=
  { lastRSSFetch := 0, lastAnalysis := 0, fetchCount := 0, lastFetchDate := 0,
    isProcessing := true, processStartTime := some 0 }

/-- The claim as stated: both completion operations leave the scheduler
with the processing flag cleared. -/
def completeClaim : Prop :=
  ∀ (s : SchedulerState) (now : Int),
    (completeRSSFetch s now).isProcessing = false ∧
    (completeAnalysis s now).isProcessing = false

/-- C5 counterexample: `completeRSSFetch` does not touch `isProcessing`,
so from the busy state the flag is still set after the call. -/
theorem c5_complete_counterexample : ¬ completeClaim := by
  intro h
  exact absurd (h schedBusy 5).1 (by decide)

/-- C5 amended: `completeAnalysis` clears the processing state and records
the completion time; `completeRSSFetch` records its completion time and
bumps the counter but leaves the processing flag unchanged. -/
theorem c5_complete_amended (s : SchedulerState) (now : Int) :
    (completeAnalysis s now).isProcessing = false ∧
    (completeAnalysis s now).lastAnalysis = now ∧
    (completeAnalysis s now).processStartTime = none ∧
    (completeRSSFetch s now).isProcessing = s.isProcessing ∧
    (completeRSSFetch s now).lastRSSFetch = now ∧
    (completeRSSFetch s now).fetchCount = s.fetchCount + 1 :=
  ⟨rfl, rfl, rfl, rfl, rfl, rfl⟩

/-! ## C2 — credential pool liveness under full cooldown -/

theorem leastCooldownAux_acc_spec :
    ∀ (l : List (String × KeyStatus)) (bk : String) (bm : Int),
      ∃ k m, leastCooldownAux (some (bk, bm)) l = some (k, m) ∧
        ((k, m) = (bk, bm) ∨ ∃ st, (k, st) ∈ l ∧ st.cooldownUntil = m) ∧
        m ≤ bm ∧ ∀ k' st', (k', st') ∈ l → m ≤ st'.cooldownUntil := by
  intro l
  induction l with
  | nil =>
    intro bk bm
    exact ⟨bk, bm, rfl, Or.inl rfl, le_refl _, by simp⟩
  | cons hd tl ih =>
    intro bk bm
    obtain ⟨k0, st0⟩ := hd
    simp only [leastCooldownAux]
    by_cases hlt : st0.cooldownUntil < bm
    · rw [if_pos hlt]
      obtain ⟨k, m, h1, h2, h3, h4⟩ := ih k0 st0.cooldownUntil
      refine ⟨k, m, h1, ?_, by omega, ?_⟩
      · rcases h2 with h2 | ⟨st, hst, hcu⟩
        · injection h2 with hk hm2
          subst hk
          subst hm2
          exact Or.inr ⟨st0, List.mem_cons_self _ _, rfl⟩
        · exact Or.inr ⟨st, List.mem_cons_of_mem _ hst, hcu⟩
      · intro k' st' h'
        rcases List.mem_cons.mp h' with h' | h'
        · injection h' with hk2 hs2
          subst hs2
          exact h3
        · exact h4 k' st' h'
    · rw [if_neg hlt]
      obtain ⟨k, m, h1, h2, h3, h4⟩ := ih bk bm
      refine ⟨k, m, h1, ?_, h3, ?_⟩
      · rcases h2 with h2 | ⟨st, hst, hcu⟩
        · exact Or.inl h2
        · exact Or.inr ⟨st, List.mem_cons_of_mem _ hst, hcu⟩
      · intro k' st' h'
        rcases List.mem_cons.mp h' with h' | h'
        · injection h' with hk2 hs2
          subst hs2
          omega
        · exact h4 k' st' h'

theorem leastCooldownAux_none_spec (l : List (String × KeyStatus))
    (hne : l ≠ []) :
    ∃ k m, leastCooldownAux none l = some (k, m) ∧
      (∃ st, (k, st) ∈ l ∧ st.cooldownUntil = m) ∧
      ∀ k' st', (k', st') ∈ l → m ≤ st'.cooldownUntil := by
  cases l with
  | nil => exact absurd rfl hne
  | cons hd tl =>
    obtain ⟨k0, st0⟩ := hd
    simp only [leastCooldownAux]
    obtain ⟨k, m, h1, h2, h3, h4⟩ := leastCooldownAux_acc_spec tl k0 st0.cooldownUntil
    refine ⟨k, m, h1, ?_, ?_⟩
    · rcases h2 with h2 | ⟨st, hst, hcu⟩
      · injection h2 with hk hm2
        subst hk
        subst hm2
        exact ⟨st0, List.mem_cons_self _ _, rfl⟩
      · exact ⟨st, List.mem_cons_of_mem _ hst, hcu⟩
    · intro k' st' h'
      rcases List.mem_cons.mp h' with h' | h'
      · injection h' with hk2 hs2
        subst hs2
        exact h3
      · exact h4 k' st' h'

theorem getNextKeyLoop_all_cooldown (now : Int) :
    ∀ (fuel : Nat) (p : APIKeyPool),
      (∀ k st, (k, st) ∈ p.keyStatus → now < st.cooldownUntil) →
      (getNextKeyLoop now p fuel).1 = getLeastCooldownKey p.keyStatus := by
  intro fuel
  induction fuel with
  | zero => intro p _; rfl
  | succ n ih =>
    intro p h
    rcases hm : mapGet p.keyStatus (p.keys.getD p.currentIndex "") with _ | st
    · simp only [getNextKeyLoop, hm]
      exact ih { p with currentIndex := (p.currentIndex + 1) % p.keys.length } h
    · have hcool := h _ st (mapGet_mem hm)
      simp only [getNextKeyLoop, hm]
      rw [if_pos (show st.cooldownUntil > now from hcool)]
      exact ih { p with currentIndex := (p.currentIndex + 1) % p.keys.length } h

/-- C2: if the pool holds at least one credential and every credential is
currently in cooldown, `getNextKey` still returns some credential, namely
one whose cooldown expiry is minimal over the whole pool. -/
theorem c2_pool_liveness (p : APIKeyPool) (now : Int)
    (hkeys : p.keys ≠ []) (hstatus : p.keyStatus ≠ [])
    (hcool : ∀ k st, (k, st) ∈ p.keyStatus → now < st.cooldownUntil) :
    ∃ k st, (getNextKey p now).1 = some k ∧ (k, st) ∈ p.keyStatus ∧
      ∀ k' st', (k', st') ∈ p.keyStatus →
        st.cooldownUntil ≤ st'.cooldownUntil := by
  have hlen : ¬ (p.keys.length = 0) := by
    simpa [List.length_eq_zero] using hkeys
  obtain ⟨k, m, h1, ⟨st, hmem, hcu⟩, hmin⟩ :=
    leastCooldownAux_none_spec p.keyStatus hstatus
  refine ⟨k, st, ?_, hmem, ?_⟩
  · unfold getNextKey
    rw [if_neg hlen, getNextKeyLoop_all_cooldown now _ p hcool]
    simp [getLeastCooldownKey, h1]
  · intro k' st' h'
    exact hcu ▸ hmin k' st' h'

/-- A two-credential pool, both in cooldown at time 100 (expiries 500 and
300). -/
def poolC2 : APIKeyPool :=
  { keys := ["a", "b"],
    keyStatus := [("a", ⟨"a", 0, false, 0, 0, 500, 1⟩),
                  ("b", ⟨"b", 1, false, 0, 0, 300, 1⟩)],
    currentIndex := 0 }

/-- C2 witness: on `poolC2` at time 100 the liveness theorem produces the
least-cooldown credential. -/
theorem c2_pool_liveness_witness :
    ∃ k st, (getNextKey poolC2 100).1 = some k ∧ (k, st) ∈ poolC2.keyStatus ∧
      ∀ k' st', (k', st') ∈ poolC2.keyStatus →
        st.cooldownUntil ≤ st'.cooldownUntil :=
  c2_pool_liveness poolC2 100 (by decide) (by decide)
    (by
      intro k st hmem
      simp only [poolC2, List.mem_cons, List.not_mem_nil, or_false] at hmem
      rcases hmem with h | h <;> (cases h; decide))

/-! ## Classifier well-formedness lemmas -/

theorem detectCategory_mem (item : NewsItem) :
    detectCategory item ∈ validCategories := by
  simp only [detectCategory]
  split_ifs <;> decide

theorem detectPriority_mem (item : NewsItem) (category : String) :
    detectPriority item category ∈ validPriorities := by
  simp only [detectPriority]
  split_ifs <;> decide

theorem mem_validCategories_ne_empty {s : String} (h : s ∈ validCategories) :
    s ≠ "" := by
  intro he
  subst he
  exact absurd h (by decide)

theorem mem_validPriorities_ne_empty {s : String} (h : s ∈ validPriorities) :
    s ≠ "" := by
  intro he
  subst he
  exact absurd h (by decide)

theorem normalizeAnalysis_category_mem (r : RawResult) (item : NewsItem) :
    (normalizeAnalysis r item).category ∈ validCategories := by
  by_cases hc : validCategories.contains r.category
  · simp only [normalizeAnalysis, hc, if_true]
    exact List.elem_iff.mp hc
  · simp only [normalizeAnalysis, hc, if_false]
    exact detectCategory_mem item

theorem normalizeAnalysis_priority_mem (r : RawResult) (item : NewsItem) :
    (normalizeAnalysis r item).priority ∈ validPriorities := by
  simp only [normalizeAnalysis]
  split_ifs with h1 h2 h3 h4 h5 h6 h7
  all_goals first
    | decide
    | (exact List.elem_iff.mp (by assumption))
    | (exact detectPriority_mem item _)

theorem createFallbackAnalysis_category_eq (item : NewsItem) :
    (createFallbackAnalysis item).category = detectCategory item := rfl

theorem createFallbackAnalysis_priority_eq (item : NewsItem) :
    (createFallbackAnalysis item).priority
      = detectPriority item (detectCategory item) := rfl

theorem analyzeNewsItem_wf (item : NewsItem) (o : FetchOutcome)
    (hc : ∀ a, o = FetchOutcome.cached a → a.category ≠ "" ∧ a.priority ≠ "") :
    (analyzeNewsItem item o).category ≠ "" ∧
      (analyzeNewsItem item o).priority ≠ "" := by
  cases o with
  | cached a => exact hc a rfl
  | success r =>
    exact ⟨mem_validCategories_ne_empty (normalizeAnalysis_category_mem r item),
           mem_validPriorities_ne_empty (normalizeAnalysis_priority_mem r item)⟩
  | noKey =>
    refine ⟨?_, ?_⟩
    · rw [show analyzeNewsItem item FetchOutcome.noKey
        = createFallbackAnalysis item from rfl,
        createFallbackAnalysis_category_eq]
      exact mem_validCategories_ne_empty (detectCategory_mem item)
    · rw [show analyzeNewsItem item FetchOutcome.noKey
        = createFallbackAnalysis item from rfl,
        createFallbackAnalysis_priority_eq]
      exact mem_validPriorities_ne_empty (detectPriority_mem item _)
  | failure =>
    refine ⟨?_, ?_⟩
    · rw [show analyzeNewsItem item FetchOutcome.failure
        = createFallbackAnalysis item from rfl,
        createFallbackAnalysis_category_eq]
      exact mem_validCategories_ne_empty (detectCategory_mem item)
    · rw [show analyzeNewsItem item FetchOutcome.failure
        = createFallbackAnalysis item from rfl,
        createFallbackAnalysis_priority_eq]
      exact mem_validPriorities_ne_empty (detectPriority_mem item _)

/-! ## C3 — classification total coverage -/

/-- C3: for any input list (with the analysis cache holding only
well-formed analyses, as it only ever stores classifier outputs), every
item in the output of `batchAnalyze` carries a non-empty category and a
non-empty priority.  The embedding is total, which reflects that
classifier failures are absorbed by the fallback rather than thrown. -/
theorem c3_classification_total (inputs : List (NewsItem × FetchOutcome))
    (hcache : ∀ it a, (it, FetchOutcome.cached a) ∈ inputs →
      a.category ≠ "" ∧ a.priority ≠ "") :
    ∀ x ∈ batchAnalyze inputs,
      (∃ c, x.category = some c ∧ c ≠ "") ∧
      (∃ pr, x.priority = some pr ∧ pr ≠ "") := by
  intro x hx
  have hx1 : x ∈ batchSorted inputs := (List.mem_filter.mp hx).1
  simp only [batchSorted] at hx1
  rw [List.mem_mergeSort, List.mem_append] at hx1
  have hform : ∃ it o, (it, o) ∈ inputs ∧
      x = applyAnalysis it (analyzeNewsItem it o) := by
    rcases hx1 with hside | hside <;>
      (obtain ⟨⟨it, o⟩, hmem, rfl⟩ := List.mem_map.mp hside;
       exact ⟨it, o, (List.mem_filter.mp hmem).1, rfl⟩)
  obtain ⟨it, o, hmem, rfl⟩ := hform
  have hwf := analyzeNewsItem_wf it o (fun a ha => hcache it a (ha ▸ hmem))
  exact ⟨⟨(analyzeNewsItem it o).category, rfl, hwf.1⟩,
         ⟨(analyzeNewsItem it o).priority, rfl, hwf.2⟩⟩

/-- A community-tier item with a short title, used with a classifier reply
of priority `high` but relevance 1. -/
def commItem : NewsItem :=
  { baseItem with
    title := "t"
    sourceTier := some "community"
    pubDate := some 5 }

/-- A classifier reply: valid category `agent`, valid priority `high`,
relevance score 1. -/
def rawHigh : RawResult :=
  { category := "agent", priority := "high", summary := "", tags := none,
    relatedModels := none, relatedCompanies := none, relevanceScore := some 1,
    sentiment := "neutral", actionable := false, technicalImpact := "" }

/-- The merged output item for `commItem` under the `rawHigh` reply. -/
def mergedHigh : NewsItem :=
  applyAnalysis commItem (analyzeNewsItem commItem (FetchOutcome.success rawHigh))

/-- The one-item batch run used by concrete classification checks. -/
theorem batchAnalyze_single_high :
    batchAnalyze [(commItem, FetchOutcome.success rawHigh)] = [mergedHigh] := by
  simp only [batchAnalyze, batchSorted]
  rw [show List.filter (fun x => x.2.isCached)
        [(commItem, FetchOutcome.success rawHigh)] = [] from by decide]
  rw [show List.filter (fun x => !x.2.isCached)
        [(commItem, FetchOutcome.success rawHigh)]
      = [(commItem, FetchOutcome.success rawHigh)] from by decide]
  simp only [List.map_nil, List.map_cons, List.nil_append]
  rw [List.mergeSort_singleton]
  rw [show List.filter keepItem
        [applyAnalysis commItem
          (analyzeNewsItem commItem (FetchOutcome.success rawHigh))]
      = [applyAnalysis commItem
          (analyzeNewsItem commItem (FetchOutcome.success rawHigh))]
    from by decide]
  rfl

/-- C3 witness: the coverage theorem applied to the singleton batch. -/
theorem c3_classification_total_witness :
    (∃ c, mergedHigh.category = some c ∧ c ≠ "") ∧
    (∃ pr, mergedHigh.priority = some pr ∧ pr ≠ "") :=
  c3_classification_total [(commItem, FetchOutcome.success rawHigh)]
    (fun it a h => by
      simp only [List.mem_cons, List.not_mem_nil, or_false] at h
      cases h)
    mergedHigh
    (by rw [batchAnalyze_single_high]; exact List.mem_cons_self _ _)

/-! ## C6 — the final relevance floor -/

theorem keepItem_iff (x : NewsItem) :
    keepItem x = true ↔
      ((∃ v, x.relevanceScore = some v ∧ 4 ≤ v) ∨
       x.sourceTier = some "official" ∨
       x.priority = some "breaking" ∨ x.priority = some "high") := by
  cases hrs : x.relevanceScore with
  | none => simp [keepItem, hrs, or_assoc]
  | some v =>
    simp only [keepItem, hrs, Bool.or_eq_true, Bool.and_eq_true,
      Bool.not_eq_true', decide_eq_true_eq, decide_eq_false_iff_not,
      Option.some.injEq]
    constructor
    · rintro (((h0 | h0) | h0) | h0)
      · exact Or.inl ⟨v, rfl, h0.2⟩
      · exact Or.inr (Or.inl h0)
      · exact Or.inr (Or.inr (Or.inl h0))
      · exact Or.inr (Or.inr (Or.inr h0))
    · rintro (⟨w, hw, h4⟩ | h | h | h)
      · cases hw
        exact Or.inl (Or.inl (Or.inl ⟨by omega, h4⟩))
      · exact Or.inl (Or.inl (Or.inr h))
      · exact Or.inl (Or.inr h)
      · exact Or.inr h

/-- C6 amended: an item is retained by the final relevance floor exactly
when its relevance score is at least 4, or its source tier is official, or
its priority is breaking or high. -/
theorem c6_relevance_floor_amended (inputs : List (NewsItem × FetchOutcome))
    (x : NewsItem) :
    x ∈ batchAnalyze inputs ↔
      (x ∈ batchSorted inputs ∧
        ((∃ v, x.relevanceScore = some v ∧ 4 ≤ v) ∨
         x.sourceTier = some "official" ∨
         x.priority = some "breaking" ∨ x.priority = some "high")) := by
  rw [show batchAnalyze inputs = (batchSorted inputs).filter keepItem from rfl,
    List.mem_filter, keepItem_iff]

/-- The claim as stated: retained exactly when breaking, or official with
high priority, or relevance at least the threshold. -/
def relevanceFloorClaim : Prop :=
  ∀ (inputs : List (NewsItem × FetchOutcome)) (x : NewsItem),
    x ∈ batchAnalyze inputs ↔
      (x ∈ batchSorted inputs ∧
        (x.priority = some "breaking" ∨
         (x.sourceTier = some "official" ∧ x.priority = some "high") ∨
         (∃ v, x.relevanceScore = some v ∧ 4 ≤ v)))

/-- C6 counterexample: a community item with priority `high` and relevance
score 1 is retained by the code (the `high` disjunct), but the claim says
it should be dropped (not breaking, not official, score below the
threshold). -/
theorem c6_relevance_floor_counterexample : ¬ relevanceFloorClaim := by
  intro h
  have hmem : mergedHigh ∈ batchAnalyze [(commItem, FetchOutcome.success rawHigh)] := by
    rw [batchAnalyze_single_high]
    exact List.mem_cons_self _ _
  have h2 := (h [(commItem, FetchOutcome.success rawHigh)] mergedHigh).mp hmem
  rcases h2.2 with hbrk | ⟨hoff, _⟩ | ⟨v, hv, h4⟩
  · exact absurd hbrk (by decide)
  · exact absurd hoff (by decide)
  · rw [show mergedHigh.relevanceScore = some 1 from by decide] at hv
    injection hv with hv
    omega

/-! ## C7 — the official-launch priority boost -/

/-- An official-tier item whose text triggers the heuristic
`model_launch` category without any breaking keyword. -/
def dsItem : NewsItem :=
  { baseItem with
    title := "DeepSeek-V3 release"
    sourceTier := some "official"
    link := "https://x.example/a"
    pubDate := some 1000 }

/-- A classifier reply carrying the valid category `model_launch` with
priority `normal`. -/
def rawML : RawResult :=
  { category := "model_launch", priority := "normal", summary := "",
    tags := none, relatedModels := none, relatedCompanies := none,
    relevanceScore := some 5, sentiment := "neutral", actionable := false,
    technicalImpact := "" }

/-- The claim as stated: on both classification paths (validated external
reply and heuristic fallback), an official-tier item with a launch-type
category comes out with breaking priority. -/
def officialBoostClaim : Prop :=
  ∀ (item : NewsItem) (raw : RawResult),
    item.sourceTier = some "official" →
    (((normalizeAnalysis raw item).category = "model_launch" ∨
      (normalizeAnalysis raw item).category = "ide_launch") →
      (normalizeAnalysis raw item).priority = "breaking") ∧
    (((createFallbackAnalysis item).category = "model_launch" ∨
      (createFallbackAnalysis item).category = "ide_launch") →
      (createFallbackAnalysis item).priority = "breaking")

/-- C7 counterexample: the fallback path has no official-launch boost.  On
the official item `dsItem` the heuristics give category `model_launch` but
priority `normal` (its text contains no breaking keyword), so the claim
fails on the fallback side. -/
theorem c7_official_boost_counterexample : ¬ officialBoostClaim := by
  intro h
  have h2 := (h dsItem rawML rfl).2 (Or.inl (by decide))
  exact absurd h2 (by decide)

/-- C7 amended: on the validated external-classifier path
(`normalizeAnalysis`), an official-tier item whose resulting category is a
launch type is always forced to breaking priority; the heuristic fallback
path does not apply this boost. -/
theorem c7_official_boost_amended (raw : RawResult) (item : NewsItem)
    (hof : item.sourceTier = some "official")
    (hcat : (normalizeAnalysis raw item).category = "model_launch" ∨
      (normalizeAnalysis raw item).category = "ide_launch") :
    (normalizeAnalysis raw item).priority = "breaking" := by
  simp only [normalizeAnalysis, hof] at hcat ⊢
  rcases hcat with hc | hc <;> rw [hc] <;> simp

/-- C7 witness: the amended boost evaluated on the official item `dsItem`
with the `model_launch` reply `rawML`. -/
theorem c7_official_boost_amended_witness :
    (normalizeAnalysis rawML dsItem).priority = "breaking" :=
  c7_official_boost_amended rawML dsItem rfl (Or.inl (by decide))

/-! ## Aggregator ordering machinery -/

/-- A scored pair whose score and date are genuine numbers (no `NaN`):
under this condition the aggregator comparator is a total preorder. -/
def aggValid (p : ScoredPair) : Bool := p.2.isSome && p.1.pubDate.isSome

theorem aggLE_trans_of_valid {a b c : ScoredPair}
    (ha : aggValid a = true) (hb : aggValid b = true) (hc : aggValid c = true)
    (h1 : aggLE a b = true) (h2 : aggLE b c = true) : aggLE a c = true := by
  simp only [aggValid, Bool.and_eq_true, Option.isSome_iff_exists] at ha hb hc
  obtain ⟨⟨sa, hsa⟩, ⟨da, hda⟩⟩ := ha
  obtain ⟨⟨sb, hsb⟩, ⟨db, hdb⟩⟩ := hb
  obtain ⟨⟨sc, hsc⟩, ⟨dc, hdc⟩⟩ := hc
  simp only [aggLE, aggCmp, hsa, hsb, hsc, hda, hdb, hdc,
    decide_eq_true_eq] at h1 h2 ⊢
  split_ifs at h1 h2 ⊢ <;> omega

theorem aggLE_total_of_valid {a b : ScoredPair}
    (ha : aggValid a = true) (hb : aggValid b = true) :
    (aggLE a b || aggLE b a) = true := by
  simp only [aggValid, Bool.and_eq_true, Option.isSome_iff_exists] at ha hb
  obtain ⟨⟨sa, hsa⟩, ⟨da, hda⟩⟩ := ha
  obtain ⟨⟨sb, hsb⟩, ⟨db, hdb⟩⟩ := hb
  simp only [aggLE, aggCmp, hsa, hsb, hda, hdb, Bool.or_eq_true,
    decide_eq_true_eq]
  split_ifs <;> omega

/-- Scored pairs with valid score and date. -/
def AggValidP : Type := { p : ScoredPair // aggValid p = true }

/-- The aggregator comparator restricted to valid pairs. -/
def aggLEV (a b : AggValidP) : Bool := aggLE a.1 b.1

theorem aggLEV_trans (a b c : AggValidP) :
    aggLEV a b = true → aggLEV b c = true → aggLEV a c = true :=
  fun h1 h2 => aggLE_trans_of_valid a.2 b.2 c.2 h1 h2

theorem aggLEV_total (a b : AggValidP) : (aggLEV a b || aggLEV b a) = true :=
  aggLE_total_of_valid a.2 b.2

/-- Sorting a list of valid scored pairs with the aggregator comparator
produces a list that is pairwise ordered by it. -/
theorem pairwise_mergeSort_agg (l : List ScoredPair)
    (h : ∀ p ∈ l, aggValid p = true) :
    (l.mergeSort aggLE).Pairwise (fun a b => aggLE a b = true) := by
  have hmap : (l.pmap (fun p hp => (⟨p, hp⟩ : AggValidP)) h).map
      Subtype.val = l := by
    rw [List.map_pmap]
    exact List.pmap_eq_map _ id l h ▸ List.map_id l
  have h1 : ((l.pmap (fun p hp => (⟨p, hp⟩ : AggValidP)) h).mergeSort
      aggLEV).map Subtype.val
      = ((l.pmap (fun p hp => (⟨p, hp⟩ : AggValidP)) h).map
          Subtype.val).mergeSort aggLE :=
    List.map_mergeSort (fun a _ b _ => rfl)
  rw [hmap] at h1
  rw [← h1, List.pairwise_map]
  exact List.sorted_mergeSort aggLEV_trans aggLEV_total _

/-- The dedup pass keeps a subsequence of its input. -/
theorem dedupGo_sublist (cutoff : Int) :
    ∀ (l : List ScoredPair) (su st : List (List Char)),
      (dedupGo cutoff su st l).Sublist l := by
  intro l
  induction l with
  | nil => intro su st; simp [dedupGo]
  | cons p rest ih =>
    intro su st
    simp only [dedupGo]
    split_ifs
    · exact (ih su st).cons p
    · exact (ih su st).cons p
    · exact (ih _ st).cons p
    · exact (ih _ _).cons₂ p

/-! ## C8 — tier ordering in the aggregator output -/

theorem deduplicateAndFilter_eq (items : List NewsItem) (cutoff : Int) :
    deduplicateAndFilter items cutoff
      = ((dedupGo cutoff [] []
          (((items.filter passesNoise).map
            (fun item => (item, itemScore item))).mergeSort aggLE)).take 50).map
          (fun p => p.1) := by
  rw [deduplicateAndFilter, List.map_take]

theorem scored_valid (items : List NewsItem)
    (hvalid : ∀ x ∈ items, x.pubDate.isSome = true ∧
      (tierRank x.sourceTier).isSome = true) :
    ∀ p ∈ (items.filter passesNoise).map (fun item => (item, itemScore item)),
      aggValid p = true := by
  intro p hp
  obtain ⟨x, hx, rfl⟩ := List.mem_map.mp hp
  have hx2 := hvalid x (List.mem_filter.mp hx).1
  simp only [aggValid, itemScore, Bool.and_eq_true]
  refine ⟨?_, hx2.1⟩
  rcases Option.isSome_iff_exists.mp hx2.2 with ⟨t, ht⟩
  simp [ht]

theorem mem_take50_dedupGo_wf (items : List NewsItem) (cutoff : Int) (p : ScoredPair)
    (hp : p ∈ (dedupGo cutoff [] []
      (((items.filter passesNoise).map
        (fun item => (item, itemScore item))).mergeSort aggLE)).take 50) :
    p.2 = itemScore p.1 := by
  have h1 : p ∈ ((items.filter passesNoise).map
      (fun item => (item, itemScore item))).mergeSort aggLE :=
    ((List.take_sublist _ _).trans (dedupGo_sublist cutoff _ _ _)).mem hp
  rw [List.mem_mergeSort] at h1
  obtain ⟨x, _, rfl⟩ := List.mem_map.mp h1
  rfl

/-- C8 (amended reading): if two items have the same content-derived score
(every scoring term except the tier bonus) and the first has the higher
trust tier (smaller tier rank), then the first receives a strictly larger
total score and every occurrence of it in the aggregator output precedes
every occurrence of the second. -/
theorem c8_tier_ordering (items : List NewsItem) (cutoff : Int)
    (hvalid : ∀ x ∈ items, x.pubDate.isSome = true ∧
      (tierRank x.sourceTier).isSome = true)
    (a b : NewsItem) (ta tb : Int)
    (hta : tierRank a.sourceTier = some ta)
    (htb : tierRank b.sourceTier = some tb)
    (htier : ta < tb)
    (hcs : contentScore a = contentScore b) :
    ∀ (i j : Nat), (deduplicateAndFilter items cutoff)[i]? = some a →
      (deduplicateAndFilter items cutoff)[j]? = some b → i < j := by
  intro i j hi hj
  rw [deduplicateAndFilter_eq] at hi hj
  rw [List.getElem?_map] at hi hj
  obtain ⟨pa, hpa, hpa1⟩ := Option.map_eq_some'.mp hi
  obtain ⟨pb, hpb, hpb1⟩ := Option.map_eq_some'.mp hj
  have hpw : ((dedupGo cutoff [] []
      (((items.filter passesNoise).map
        (fun item => (item, itemScore item))).mergeSort aggLE)).take 50).Pairwise
      (fun x y => aggLE x y = true) :=
    List.Pairwise.sublist
      ((List.take_sublist _ _).trans (dedupGo_sublist cutoff _ _ _))
      (pairwise_mergeSort_agg _ (scored_valid items hvalid))
  have hwa : pa.2 = itemScore pa.1 := by
    obtain ⟨hlt, he⟩ := List.getElem?_eq_some.mp hpa
    exact mem_take50_dedupGo_wf items cutoff pa (he ▸ List.getElem_mem hlt)
  have hwb : pb.2 = itemScore pb.1 := by
    obtain ⟨hlt, he⟩ := List.getElem?_eq_some.mp hpb
    exact mem_take50_dedupGo_wf items cutoff pb (he ▸ List.getElem_mem hlt)
  have hsa : pa.2 = some ((3 - ta) * 20 + contentScore a) := by
    rw [hwa, hpa1, itemScore, hta]
    rfl
  have hsb : pb.2 = some ((3 - tb) * 20 + contentScore b) := by
    rw [hwb, hpb1, itemScore, htb]
    rfl
  by_contra hij
  push_neg at hij
  rcases Nat.lt_or_ge j i with hji | hji
  · obtain ⟨hjl, hje⟩ := List.getElem?_eq_some.mp hpb
    obtain ⟨hil, hie⟩ := List.getElem?_eq_some.mp hpa
    have hrel := List.pairwise_iff_getElem.mp hpw j i hjl hil hji
    rw [hje, hie] at hrel
    simp only [aggLE, aggCmp, hsa, hsb, decide_eq_true_eq] at hrel
    split_ifs at hrel <;> omega
  · have hji2 : j = i := by omega
    subst hji2
    rw [hpa] at hpb
    cases hpb
    rw [hpa1] at hpb1
    subst hpb1
    rw [hta] at htb
    cases htb
    omega

/-- Official item with no scoring keywords: total score 60, published at
time 1000. -/
def itemA8 : NewsItem :=
  { baseItem with
    title := "zzz qqq rrr sss ttt"
    sourceTier := some "official"
    link := "https://site-a.example/x"
    source := "X"
    pubDate := some 1000 }

/-- Community item whose text mentions `grok` (+40): total score also 60,
published later at time 2000. -/
def itemB8 : NewsItem :=
  { baseItem with
    title := "zzz qqq grok rrr sss"
    sourceTier := some "community"
    link := "https://site-b.example/y"
    source := "Y"
    pubDate := some 2000 }

theorem deduplicateAndFilter_c8cex :
    deduplicateAndFilter [itemA8, itemB8] 0 = [itemB8, itemA8] := by
  simp only [deduplicateAndFilter]
  rw [show List.filter passesNoise [itemA8, itemB8] = [itemA8, itemB8]
    from by decide]
  rw [show List.map (fun item => (item, itemScore item)) [itemA8, itemB8]
      = [(itemA8, itemScore itemA8), (itemB8, itemScore itemB8)]
    from by decide]
  rw [show List.mergeSort
        [(itemA8, itemScore itemA8), (itemB8, itemScore itemB8)] aggLE
      = [(itemB8, itemScore itemB8), (itemA8, itemScore itemA8)] from by
    simp [List.mergeSort, List.splitInTwo, List.merge]
    all_goals decide]
  decide

/-- The claim as stated: among output items with identical total score,
the higher-tier one always sorts first. -/
def tierOrderingClaim : Prop :=
  ∀ (items : List NewsItem) (cutoff : Int) (a b : NewsItem) (ta tb : Int),
    tierRank a.sourceTier = some ta → tierRank b.sourceTier = some tb →
    ta < tb → itemScore a = itemScore b →
    ∀ (i j : Nat), (deduplicateAndFilter items cutoff)[i]? = some a →
      (deduplicateAndFilter items cutoff)[j]? = some b → i < j

/-- C8 counterexample: `itemA8` (official) and `itemB8` (community) both
have total score 60, but the tie is broken by publication recency, so the
later community item sorts first and the claim fails. -/
theorem c8_tier_ordering_counterexample : ¬ tierOrderingClaim := by
  intro h
  have h0 : (deduplicateAndFilter [itemA8, itemB8] 0)[0]? = some itemB8 := by
    rw [deduplicateAndFilter_c8cex]
    rfl
  have h1 : (deduplicateAndFilter [itemA8, itemB8] 0)[1]? = some itemA8 := by
    rw [deduplicateAndFilter_c8cex]
    rfl
  have h2 := h [itemA8, itemB8] 0 itemA8 itemB8 0 2 (by decide) (by decide)
    (by decide) (by decide) 1 0 h1 h0
  omega

/-- Trusted item with no scoring keywords: total score 40. -/
def itemB9 : NewsItem :=
  { baseItem with
    title := "yyy www qqq nnn mmm"
    sourceTier := some "trusted"
    link := "https://site-d.example/z"
    source := "Z"
    pubDate := some 2000 }

theorem deduplicateAndFilter_c8wit :
    deduplicateAndFilter [itemA8, itemB9] 0 = [itemA8, itemB9] := by
  simp only [deduplicateAndFilter]
  rw [show List.filter passesNoise [itemA8, itemB9] = [itemA8, itemB9]
    from by decide]
  rw [show List.map (fun item => (item, itemScore item)) [itemA8, itemB9]
      = [(itemA8, itemScore itemA8), (itemB9, itemScore itemB9)]
    from by decide]
  rw [show List.mergeSort
        [(itemA8, itemScore itemA8), (itemB9, itemScore itemB9)] aggLE
      = [(itemA8, itemScore itemA8), (itemB9, itemScore itemB9)] from by
    simp [List.mergeSort, List.splitInTwo, List.merge]
    all_goals decide]
  decide

/-- C8 witness: the official `itemA8` and the trusted `itemB9` have the
same content score 0, and the official one indeed precedes in the output. -/
theorem c8_tier_ordering_witness :
    (deduplicateAndFilter [itemA8, itemB9] 0)[0]? = some itemA8 ∧
    (deduplicateAndFilter [itemA8, itemB9] 0)[1]? = some itemB9 ∧
    (0 : Nat) < 1 := by
  have h0 : (deduplicateAndFilter [itemA8, itemB9] 0)[0]? = some itemA8 := by
    rw [deduplicateAndFilter_c8wit]
    rfl
  have h1 : (deduplicateAndFilter [itemA8, itemB9] 0)[1]? = some itemB9 := by
    rw [deduplicateAndFilter_c8wit]
    rfl
  exact ⟨h0, h1, c8_tier_ordering [itemA8, itemB9] 0 (by decide) itemA8 itemB9
    0 1 (by decide) (by decide) (by decide) (by decide) 0 1 h0 h1⟩

/-! ## C9 — determinism and idempotence of the dedup/filter stage -/

/-- The date guard of the dedup step as a standalone predicate. -/
def aggDateOK (cutoff : Int) (p : ScoredPair) : Bool :=
  match p.1.pubDate with
  | some d => decide (cutoff < d)
  | none => false

/-- The relation the dedup pass establishes between an earlier kept pair
`p` and a later kept pair `q`: distinct normalised URLs, and distinct
normalised titles whenever the later title is long enough to be checked. -/
def dedupR (p q : ScoredPair) : Prop :=
  normalizeUrl q.1.link ≠ normalizeUrl p.1.link ∧
  (10 < (normalizeTitle q.1.title).length →
    normalizeTitle q.1.title ≠ normalizeTitle p.1.title)

theorem dedupGo_spec (cutoff : Int) :
    ∀ (l : List ScoredPair) (su st : List (List Char)),
      (∀ p ∈ dedupGo cutoff su st l,
        aggDateOK cutoff p = true ∧
        normalizeUrl p.1.link ∉ su ∧
        (10 < (normalizeTitle p.1.title).length →
          normalizeTitle p.1.title ∉ st)) ∧
      (dedupGo cutoff su st l).Pairwise dedupR := by
  intro l
  induction l with
  | nil =>
    intro su st
    exact ⟨by simp [dedupGo], by simp [dedupGo]⟩
  | cons p rest ih =>
    intro su st
    simp only [dedupGo]
    split_ifs with h1 h2 h3
    · exact ih su st
    · exact ih su st
    · obtain ⟨hmem, hpw⟩ := ih (normalizeUrl p.1.link :: su) st
      refine ⟨?_, hpw⟩
      intro q hq
      obtain ⟨hd, hu, ht⟩ := hmem q hq
      exact ⟨hd, fun hin => hu (List.mem_cons_of_mem _ hin), ht⟩
    · obtain ⟨hmem, hpw⟩ :=
        ih (normalizeUrl p.1.link :: su) (normalizeTitle p.1.title :: st)
      constructor
      · intro q hq
        rcases List.mem_cons.mp hq with rfl | hq2
        · refine ⟨?_, ?_, ?_⟩
          · show (match q.1.pubDate with
              | some d => decide (cutoff < d)
              | none => false) = true
            cases hmm : (match q.1.pubDate with
              | some d => decide (cutoff < d)
              | none => false)
            · exact absurd (by simp [hmm]) h1
            · rfl
          · exact fun hin => h2 (List.elem_iff.mpr hin)
          · intro hlen hin
            refine h3 ?_
            rw [Bool.and_eq_true]
            exact ⟨decide_eq_true hlen, List.elem_iff.mpr hin⟩
        · obtain ⟨hd, hu, ht⟩ := hmem q hq2
          exact ⟨hd, fun hin => hu (List.mem_cons_of_mem _ hin),
            fun hlen hin => ht hlen (List.mem_cons_of_mem _ hin)⟩
      · refine List.Pairwise.cons ?_ hpw
        intro q hq
        obtain ⟨hd, hu, ht⟩ := hmem q hq
        refine ⟨?_, ?_⟩
        · exact fun he => hu (he ▸ List.mem_cons_self _ _)
        · exact fun hlen he => (ht hlen) (he ▸ List.mem_cons_self _ _)

theorem dedupGo_keep_all (cutoff : Int) :
    ∀ (l : List ScoredPair) (su st : List (List Char)),
      (∀ p ∈ l, aggDateOK cutoff p = true) →
      (∀ p ∈ l, normalizeUrl p.1.link ∉ su) →
      (∀ p ∈ l, 10 < (normalizeTitle p.1.title).length →
        normalizeTitle p.1.title ∉ st) →
      l.Pairwise dedupR →
      dedupGo cutoff su st l = l := by
  intro l
  induction l with
  | nil => intro su st _ _ _ _; rfl
  | cons p rest ih =>
    intro su st hd hu ht hpw
    have hdp : (match p.1.pubDate with
        | some d => decide (cutoff < d)
        | none => false) = true := hd p (List.mem_cons_self _ _)
    have hup := hu p (List.mem_cons_self _ _)
    have htp := ht p (List.mem_cons_self _ _)
    simp only [dedupGo]
    rw [if_neg (by simp [hdp]), if_neg (fun hc => hup (List.elem_iff.mp hc)),
      if_neg (fun hc => by
        simp only [Bool.and_eq_true, decide_eq_true_eq] at hc
        exact htp hc.1 (List.elem_iff.mp hc.2))]
    refine congrArg (p :: ·) (ih _ _ ?_ ?_ ?_ (hpw.of_cons))
    · exact fun q hq => hd q (List.mem_cons_of_mem _ hq)
    · intro q hq
      rw [List.mem_cons]
      rintro (he | hin)
      · exact (List.rel_of_pairwise_cons hpw hq).1 he
      · exact hu q (List.mem_cons_of_mem _ hq) hin
    · intro q hq hlen
      rw [List.mem_cons]
      rintro (he | hin)
      · exact (List.rel_of_pairwise_cons hpw hq).2 hlen he
      · exact ht q (List.mem_cons_of_mem _ hq) hlen hin

/-- The sorted scored list of one aggregator pass. -/
def aggSorted (items : List NewsItem) : List ScoredPair :=
  ((items.filter passesNoise).map
    (fun item => (item, itemScore item))).mergeSort aggLE

/-- The kept, truncated scored list of one aggregator pass. -/
def aggSub (items : List NewsItem) (cutoff : Int) : List ScoredPair :=
  (dedupGo cutoff [] [] (aggSorted items)).take 50

theorem deduplicateAndFilter_eq2 (items : List NewsItem) (cutoff : Int) :
    deduplicateAndFilter items cutoff
      = (aggSub items cutoff).map (fun p => p.1) := by
  rw [deduplicateAndFilter_eq]
  rfl

theorem aggSub_wf (items : List NewsItem) (cutoff : Int) :
    ∀ p ∈ aggSub items cutoff, p.2 = itemScore p.1 := by
  intro p hp
  have h1 : p ∈ aggSorted items :=
    List.Sublist.mem hp
      ((List.take_sublist _ _).trans (dedupGo_sublist cutoff _ _ _))
  simp only [aggSorted, List.mem_mergeSort] at h1
  obtain ⟨x, _, rfl⟩ := List.mem_map.mp h1
  rfl

theorem aggSub_passes (items : List NewsItem) (cutoff : Int) :
    ∀ p ∈ aggSub items cutoff, passesNoise p.1 = true := by
  intro p hp
  have h1 : p ∈ aggSorted items :=
    List.Sublist.mem hp
      ((List.take_sublist _ _).trans (dedupGo_sublist cutoff _ _ _))
  simp only [aggSorted, List.mem_mergeSort] at h1
  obtain ⟨x, hx, rfl⟩ := List.mem_map.mp h1
  exact (List.mem_filter.mp hx).2

theorem aggSub_pairwise_agg (items : List NewsItem) (cutoff : Int)
    (hvalid : ∀ x ∈ items, x.pubDate.isSome = true ∧
      (tierRank x.sourceTier).isSome = true) :
    (aggSub items cutoff).Pairwise (fun a b => aggLE a b = true) :=
  List.Pairwise.sublist
    ((List.take_sublist _ _).trans (dedupGo_sublist cutoff _ _ _))
    (pairwise_mergeSort_agg _ (scored_valid items hvalid))

theorem aggSub_pairwise_dedup (items : List NewsItem) (cutoff : Int) :
    (aggSub items cutoff).Pairwise dedupR :=
  List.Pairwise.sublist (List.take_sublist _ _)
    (dedupGo_spec cutoff (aggSorted items) [] []).2

theorem aggSub_dateOK (items : List NewsItem) (cutoff : Int) :
    ∀ p ∈ aggSub items cutoff, aggDateOK cutoff p = true :=
  fun p hp =>
    ((dedupGo_spec cutoff (aggSorted items) [] []).1 p
      (List.Sublist.mem hp (List.take_sublist _ _))).1

/-- C9 (amended, idempotence half): on inputs whose items all carry a
parseable date and a recognised tier, running the dedup/filter stage on its
own output returns that output unchanged. -/
theorem c9_dedup_idempotent (items : List NewsItem) (cutoff : Int)
    (hvalid : ∀ x ∈ items, x.pubDate.isSome = true ∧
      (tierRank x.sourceTier).isSome = true) :
    deduplicateAndFilter (deduplicateAndFilter items cutoff) cutoff
      = deduplicateAndFilter items cutoff := by
  rw [deduplicateAndFilter_eq2 items cutoff]
  have h1 : ((aggSub items cutoff).map (fun p => p.1)).filter passesNoise
      = (aggSub items cutoff).map (fun p => p.1) := by
    rw [List.filter_eq_self]
    intro x hx
    obtain ⟨p, hp, rfl⟩ := List.mem_map.mp hx
    exact aggSub_passes items cutoff p hp
  have h2 : (((aggSub items cutoff).map (fun p => p.1)).map
      (fun item => (item, itemScore item))) = aggSub items cutoff := by
    rw [List.map_map]
    have hcong : ∀ p ∈ aggSub items cutoff,
        ((fun item => (item, itemScore item)) ∘ (fun p => p.1)) p = id p := by
      intro p hp
      have hw := aggSub_wf items cutoff p hp
      cases p with
      | mk x s =>
        simp only [Function.comp, id]
        simp only at hw
        rw [hw]
    rw [List.map_congr_left hcong, List.map_id]
  have h3 : (aggSub items cutoff).mergeSort aggLE = aggSub items cutoff :=
    List.mergeSort_of_sorted (aggSub_pairwise_agg items cutoff hvalid)
  have h4 : dedupGo cutoff [] [] (aggSub items cutoff) = aggSub items cutoff :=
    dedupGo_keep_all cutoff _ [] []
      (aggSub_dateOK items cutoff)
      (fun p _ hin => List.not_mem_nil _ hin)
      (fun p _ _ hin => List.not_mem_nil _ hin)
      (aggSub_pairwise_dedup items cutoff)
  have h5 : (((aggSub items cutoff)).map (fun p => p.1)).take 50
      = (aggSub items cutoff).map (fun p => p.1) := by
    apply List.take_of_length_le
    rw [List.length_map]
    exact List.length_take_le 50 _
  simp only [deduplicateAndFilter]
  rw [h1, h2, h3, h4, h5]

/-- Community item with a keyword-free title, published at time 1000. -/
def itemC9 : NewsItem :=
  { baseItem with
    title := "zzz qqq rrr sss ttt one"
    sourceTier := some "community"
    link := "https://site-c.example/x"
    source := "C"
    pubDate := some 1000 }

/-- A second community item with the same score and date as `itemC9` but a
different title and link. -/
def itemD9 : NewsItem :=
  { baseItem with
    title := "zzz qqq rrr sss ttt two"
    sourceTier := some "community"
    link := "https://site-d.example/y"
    source := "D"
    pubDate := some 1000 }

theorem deduplicateAndFilter_c9cd :
    deduplicateAndFilter [itemC9, itemD9] 0 = [itemC9, itemD9] := by
  simp only [deduplicateAndFilter]
  rw [show List.filter passesNoise [itemC9, itemD9] = [itemC9, itemD9]
    from by decide]
  rw [show List.map (fun item => (item, itemScore item)) [itemC9, itemD9]
      = [(itemC9, itemScore itemC9), (itemD9, itemScore itemD9)]
    from by decide]
  rw [show List.mergeSort
        [(itemC9, itemScore itemC9), (itemD9, itemScore itemD9)] aggLE
      = [(itemC9, itemScore itemC9), (itemD9, itemScore itemD9)] from by
    simp [List.mergeSort, List.splitInTwo, List.merge]
    all_goals decide]
  decide

theorem deduplicateAndFilter_c9dc :
    deduplicateAndFilter [itemD9, itemC9] 0 = [itemD9, itemC9] := by
  simp only [deduplicateAndFilter]
  rw [show List.filter passesNoise [itemD9, itemC9] = [itemD9, itemC9]
    from by decide]
  rw [show List.map (fun item => (item, itemScore item)) [itemD9, itemC9]
      = [(itemD9, itemScore itemD9), (itemC9, itemScore itemC9)]
    from by decide]
  rw [show List.mergeSort
        [(itemD9, itemScore itemD9), (itemC9, itemScore itemC9)] aggLE
      = [(itemD9, itemScore itemD9), (itemC9, itemScore itemC9)] from by
    simp [List.mergeSort, List.splitInTwo, List.merge]
    all_goals decide]
  decide

/-- The claim as stated: the dedup/filter output is identical (same items,
same order) across every permutation of the raw input list. -/
def aggregatorPermClaim : Prop :=
  ∀ (items itemsP : List NewsItem) (cutoff : Int),
    items.Perm itemsP →
    deduplicateAndFilter items cutoff = deduplicateAndFilter itemsP cutoff

/-- C9 counterexample: two distinct items with equal score and equal
publication date are returned in input order (the sort is stable and no
comparator distinguishes them), so swapping the input order swaps the
output order. -/
theorem c9_permutation_counterexample : ¬ aggregatorPermClaim := by
  intro h
  have h2 := h [itemC9, itemD9] [itemD9, itemC9] 0
    (List.Perm.swap itemD9 itemC9 [])
  rw [deduplicateAndFilter_c9cd, deduplicateAndFilter_c9dc] at h2
  exact absurd h2 (by decide)

/-- C9 witness: the idempotence theorem evaluated on the two-item input
`[itemA8, itemB8]`. -/
theorem c9_dedup_idempotent_witness :
    deduplicateAndFilter (deduplicateAndFilter [itemA8, itemB8] 0) 0
      = deduplicateAndFilter [itemA8, itemB8] 0 :=
  c9_dedup_idempotent [itemA8, itemB8] 0 (by decide)
